import Mathlib

/-!
Verification of the resilient authenticated OData access layer of
`d365-odata-mcp` against its natural-language specification.

The Rust source is shallowly embedded: pure functions become Lean
functions, the stateful token cache becomes an explicit interleaving
state machine, machine integers become `Nat` (with an explicit
`% 2 ^ 64` where the source's `u64` arithmetic can wrap), and fallible
code returns `Except` / `Option`.  String positions are character
positions; on the ASCII inputs of these claims they coincide with
Rust's byte positions.
-/

/-! ## Product variant (`src/config`, used by `QueryOptions::to_query_string`) -/

/-- The closed product enumeration `ProductType` with variants
`Dataverse` and `Finops` (F&O). -/
inductive ProductType where
  | Dataverse
  | Finops
deriving DecidableEq, BEq, Repr

/-! ## QueryOptions (`src/src/odata/client.rs` lines 38-96) -/

/-- `QueryOptions` from `src/src/odata/client.rs` (lines 40-49):
optional field selection, raw filter, paging, ordering, expansion, and
the two boolean flags. -/
structure QueryOptions where
  select : Option (List String)
  filter : Option String
  top : Option Nat
  skip : Option Nat
  orderby : Option String
  expand : Option (List String)
  cross_company : Bool
  count : Bool
deriving DecidableEq, Repr

/-- The all-unset `QueryOptions` (Rust `Default`). -/
def QueryOptions.default : QueryOptions :=
  ⟨none, none, none, none, none, none, false, false⟩

/-- The parameter list built by `QueryOptions::to_query_string`
(lines 53-88): the sequence of `params.push(...)` calls, in source
order. -/
def QueryOptions.queryParams (o : QueryOptions) (product : ProductType) : List String :=
  let params : List String := []
  let params := match o.select with
    | some select => params ++ ["$select=" ++ String.intercalate "," select]
    | none => params
  let params := match o.filter with
    | some filter => params ++ ["$filter=" ++ filter]
    | none => params
  let params := match o.top with
    | some top => params ++ ["$top=" ++ toString top]
    | none => params
  let params := match o.skip with
    | some skip => params ++ ["$skip=" ++ toString skip]
    | none => params
  let params := match o.orderby with
    | some orderby => params ++ ["$orderby=" ++ orderby]
    | none => params
  let params := match o.expand with
    | some expand => params ++ ["$expand=" ++ String.intercalate "," expand]
    | none => params
  let params := if o.count then params ++ ["$count=true"] else params
  let params :=
    if o.cross_company && decide (product = ProductType.Finops) then
      params ++ ["cross-company=true"]
    else params
  params

/-- `QueryOptions::to_query_string` (lines 53-95): empty string when no
parameters, otherwise `?` followed by the `&`-joined parameters. -/
def QueryOptions.to_query_string (o : QueryOptions) (product : ProductType) : String :=
  let params := o.queryParams product
  if params.isEmpty then "" else "?" ++ String.intercalate "&" params

/-- Spec-side description of the emitted parameters (spec §4.3): the
applicable parameters, in exactly the fixed order `$select`, `$filter`,
`$top`, `$skip`, `$orderby`, `$expand`, `$count`, `cross-company`, the
latter gated on the FinOps variant. -/
def specOrderedParams (o : QueryOptions) (product : ProductType) : List String :=
  List.filterMap id
    [ o.select.map (fun select => "$select=" ++ String.intercalate "," select),
      o.filter.map (fun filter => "$filter=" ++ filter),
      o.top.map (fun top => "$top=" ++ toString top),
      o.skip.map (fun skip => "$skip=" ++ toString skip),
      o.orderby.map (fun orderby => "$orderby=" ++ orderby),
      o.expand.map (fun expand => "$expand=" ++ String.intercalate "," expand),
      if o.count then some "$count=true" else none,
      if o.cross_company && decide (product = ProductType.Finops) then
        some "cross-company=true"
      else none ]

lemma queryParams_eq_specOrderedParams (o : QueryOptions) (p : ProductType) :
    o.queryParams p = specOrderedParams o p := by
  rcases o with ⟨s, f, t, sk, ob, e, cc, c⟩
  cases s <;> cases f <;> cases t <;> cases sk <;> cases ob <;> cases e <;>
    cases cc <;> cases c <;> cases p <;> rfl

/-- C6: for every `QueryOptions` and product variant, `to_query_string`
returns the empty string when no parameters apply, and otherwise `?`
followed by the applicable parameters joined with `&` in exactly the
order `$select`, `$filter`, `$top`, `$skip`, `$orderby`, `$expand`,
`$count`, `cross-company` (for whichever subset is present), `$select`
and `$expand` joining their lists with commas in caller order.  The
fixed order and comma-joins are recorded in `specOrderedParams`. -/
theorem claim_C6_query_string_order (o : QueryOptions) (p : ProductType) :
    o.to_query_string p =
      (if (specOrderedParams o p).isEmpty then ""
       else "?" ++ String.intercalate "&" (specOrderedParams o p)) := by
  unfold QueryOptions.to_query_string
  rw [queryParams_eq_specOrderedParams]

/-- Every parameter other than `cross-company=true` starts with `$`. -/
lemma dollar_append_ne (pre suf : String) (h : pre.data.head? = some '$') :
    pre ++ suf ≠ "cross-company=true" := by
  intro heq
  have hdata : pre.data ++ suf.data = "cross-company=true".data := congrArg String.data heq
  cases hp : pre.data with
  | nil => rw [hp] at h; exact absurd h (by decide)
  | cons c rest =>
    rw [hp] at h hdata
    simp only [List.head?_cons, Option.some.injEq] at h
    have hc : c = 'c' := by
      have h2 := congrArg List.head? hdata
      simpa using h2
    rw [h] at hc
    exact absurd hc (by decide)

/-- C7: for every `QueryOptions` with `cross_company = true` and every
product variant, the built parameter list contains the parameter
`cross-company=true` if and only if the variant is FinOps; for the
Dataverse variant the flag is silently dropped (no error is produced:
`to_query_string` is total). -/
theorem claim_C7_cross_company (o : QueryOptions) (p : ProductType)
    (h : o.cross_company = true) :
    "cross-company=true" ∈ o.queryParams p ↔ p = ProductType.Finops := by
  rw [queryParams_eq_specOrderedParams]
  unfold specOrderedParams
  constructor
  · intro hmem
    rcases List.mem_filterMap.1 hmem with ⟨a, ha, haeq⟩
    simp only [id] at haeq
    subst haeq
    simp only [List.mem_cons, List.not_mem_nil, or_false] at ha
    rcases ha with ha | ha | ha | ha | ha | ha | ha | ha
    · rcases Option.map_eq_some'.1 ha.symm with ⟨sel, _, hs⟩
      exact absurd hs (dollar_append_ne _ _ rfl)
    · rcases Option.map_eq_some'.1 ha.symm with ⟨fil, _, hs⟩
      exact absurd hs (dollar_append_ne _ _ rfl)
    · rcases Option.map_eq_some'.1 ha.symm with ⟨top, _, hs⟩
      exact absurd hs (dollar_append_ne _ _ rfl)
    · rcases Option.map_eq_some'.1 ha.symm with ⟨sk, _, hs⟩
      exact absurd hs (dollar_append_ne _ _ rfl)
    · rcases Option.map_eq_some'.1 ha.symm with ⟨ob, _, hs⟩
      exact absurd hs (dollar_append_ne _ _ rfl)
    · rcases Option.map_eq_some'.1 ha.symm with ⟨ex, _, hs⟩
      exact absurd hs (dollar_append_ne _ _ rfl)
    · by_cases hc : o.count
      · simp [hc] at ha
      · simp [hc] at ha
    · cases p with
      | Finops => rfl
      | Dataverse => simp [h] at ha
  · intro hp
    subst hp
    apply List.mem_filterMap.2
    refine ⟨some "cross-company=true", ?_, rfl⟩
    simp [h]

/-- C7 witness: with only `cross_company` set, FinOps emits the flag
and Dataverse does not. -/
theorem claim_C7_cross_company_witness :
    ("cross-company=true" ∈
        QueryOptions.queryParams ⟨none, none, none, none, none, none, true, false⟩
          ProductType.Finops) ∧
      ¬ ("cross-company=true" ∈
        QueryOptions.queryParams ⟨none, none, none, none, none, none, true, false⟩
          ProductType.Dataverse) := by
  constructor
  · exact (claim_C7_cross_company ⟨none, none, none, none, none, none, true, false⟩
      ProductType.Finops rfl).2 rfl
  · intro hmem
    exact absurd ((claim_C7_cross_company ⟨none, none, none, none, none, none, true, false⟩
      ProductType.Dataverse rfl).1 hmem) (by decide)

/-! ## Token cache (`target/package/d365-odata-mcp-0.1.0/src/auth/mod.rs`) -/

/-- `CachedToken` (auth/mod.rs lines 42-46): an opaque access token and
its absolute expiry instant.  Instants are modelled as seconds on a
monotonic clock. -/
structure CachedToken where
  access_token : String
  expires_at : Nat
deriving DecidableEq, Repr

/-- `CachedToken::is_valid` (auth/mod.rs lines 48-53): the token is
valid iff `expires_at > Instant::now() + 60s`. -/
def CachedToken.is_valid (t : CachedToken) (now : Nat) : Bool :=
  decide (now + 60 < t.expires_at)

/-- C9: a cached token is valid iff its expiry is strictly more than 60
seconds after the current time; in particular a token expiring exactly
60 seconds away, within 60 seconds, or in the past is not valid. -/
theorem claim_C9_token_validity (t : CachedToken) (now : Nat) :
    (t.is_valid now = true ↔ now + 60 < t.expires_at) ∧
    (t.expires_at = now + 60 → t.is_valid now = false) ∧
    (t.expires_at ≤ now + 60 → t.is_valid now = false) ∧
    (t.expires_at ≤ now → t.is_valid now = false) := by
  unfold CachedToken.is_valid
  refine ⟨by simp, ?_, ?_, ?_⟩ <;> intro h <;> simp <;> omega

/-- C9 witness: at `now = 0`, expiry 60 is invalid, expiry 30 is
invalid, expiry 0 is invalid, and expiry 61 is valid. -/
theorem claim_C9_token_validity_witness :
    (CachedToken.mk "t" 60).is_valid 0 = false ∧
    (CachedToken.mk "t" 30).is_valid 0 = false ∧
    (CachedToken.mk "t" 0).is_valid 0 = false ∧
    (CachedToken.mk "t" 61).is_valid 0 = true :=
  ⟨(claim_C9_token_validity ⟨"t", 60⟩ 0).2.1 rfl,
   (claim_C9_token_validity ⟨"t", 30⟩ 0).2.2.1 (by decide),
   (claim_C9_token_validity ⟨"t", 0⟩ 0).2.2.2 (by decide),
   (claim_C9_token_validity ⟨"t", 61⟩ 0).1.mpr (by decide)⟩

/-! ## Concurrent `get_token` (auth/mod.rs lines 86-159)

`AzureAdAuth::get_token` checks the cache under a read lock and, if no
valid token is present, calls `acquire_token`, which POSTs the token
exchange and only then takes the write lock to store the result.  There
is no re-validation between the read check and the exchange.  Each
caller of `get_token` is modelled as a small program whose suspension
points (lock acquisition, the HTTP exchange) separate its atomic steps;
an arbitrary scheduler interleaves the callers. -/

/-- Program counter of one `get_token` caller. -/
inductive CallerPC where
  /-- About to run the read-locked cache check (get_token lines 88-96). -/
  | start
  /-- The read check found no valid token; about to POST the exchange
  (acquire_token lines 106-126). -/
  | acquiring
  /-- The exchange returned `token`; about to store it under the write
  lock (acquire_token lines 142-151). -/
  | writing (token : String)
  /-- `get_token` returned `token`. -/
  | done (token : String)
deriving DecidableEq, Repr

/-- Shared state: the single `RwLock<Option<CachedToken>>` cell, the
number of token-exchange requests issued so far, and each caller's
program counter. -/
structure AuthSys where
  cache : Option CachedToken
  requests : Nat
  callers : List CallerPC
deriving DecidableEq, Repr

/-- The token returned by the n-th exchange (fresh per request). -/
def freshToken (n : Nat) : String := "token" ++ toString n

/-- One atomic step of caller `i` (out-of-range or finished callers do
nothing).  The exchange response carries `expires_in = 3600`. -/
def authStep (now : Nat) (s : AuthSys) (i : Nat) : AuthSys :=
  match s.callers[i]? with
  | none => s
  | some pc =>
    match pc with
    | .start =>
      match s.cache with
      | some c =>
        if c.is_valid now then
          { s with callers := s.callers.set i (.done c.access_token) }
        else { s with callers := s.callers.set i .acquiring }
      | none => { s with callers := s.callers.set i .acquiring }
    | .acquiring =>
      { s with requests := s.requests + 1,
               callers := s.callers.set i (.writing (freshToken s.requests)) }
    | .writing tok =>
      { s with cache := some ⟨tok, now + 3600⟩,
               callers := s.callers.set i (.done tok) }
    | .done _ => s

/-- Run a schedule (a list of caller indices) from a state. -/
def authRun (now : Nat) (s : AuthSys) (sched : List Nat) : AuthSys :=
  sched.foldl (authStep now) s

/-- N concurrent callers, empty cache, no requests issued yet. -/
def authInit (n : Nat) : AuthSys :=
  ⟨none, 0, List.replicate n CallerPC.start⟩

/-- C1 counterexample: two concurrent callers, no cached token, both
pass the read-lock check before either exchanges.  Two token-exchange
requests are issued — not one — and the callers obtain different
tokens: the loser does not reuse the winner's token. -/
theorem claim_C1_counterexample :
    (authRun 0 (authInit 2) [0, 1, 0, 1, 0, 1]).requests = 2 ∧
    (authRun 0 (authInit 2) [0, 1, 0, 1, 0, 1]).callers =
      [CallerPC.done "token0", CallerPC.done "token1"] ∧
    (authRun 0 (authInit 2) [0, 1, 0, 1, 0, 1]).requests ≠ 1 := by
  decide

/-- A caller still holds its "may issue a request" budget while it has
not yet passed the exchange step. -/
def callerPot : CallerPC → Nat
  | .start => 1
  | .acquiring => 1
  | _ => 0

/-- Total outstanding request budget of the callers. -/
def potSum (l : List CallerPC) : Nat := (l.map callerPot).sum

lemma potSum_set (l : List CallerPC) (i : Nat) (x : CallerPC) (h : i < l.length) :
    potSum (l.set i x) + callerPot (l.get ⟨i, h⟩) = potSum l + callerPot x := by
  induction l generalizing i with
  | nil => simp at h
  | cons a tl ih =>
    cases i with
    | zero => simp [potSum, List.set]; omega
    | succ j =>
      have hj : j < tl.length := Nat.lt_of_succ_lt_succ h
      have := ih j hj
      simp only [potSum, List.set, List.map_cons, List.sum_cons, List.get] at this ⊢
      omega

lemma authStep_measure (now : Nat) (s : AuthSys) (i : Nat) :
    (authStep now s i).requests + potSum (authStep now s i).callers ≤
      s.requests + potSum s.callers := by
  unfold authStep
  cases hg : s.callers[i]? with
  | none => simp
  | some pc =>
    have hi : i < s.callers.length := by
      by_contra hnot
      rw [List.getElem?_eq_none (Nat.le_of_not_lt hnot)] at hg
      exact absurd hg (by simp)
    have hget : s.callers.get ⟨i, hi⟩ = pc := by
      have := List.getElem?_eq_getElem hi
      rw [hg] at this
      simpa [List.get_eq_getElem] using this.symm
    cases pc with
    | start =>
      cases hc : s.cache with
      | none =>
        have hset := potSum_set s.callers i CallerPC.acquiring hi
        rw [hget] at hset
        simp only [callerPot] at hset
        simp only []
        omega
      | some c =>
        cases hv : c.is_valid now with
        | true =>
          have hset := potSum_set s.callers i (CallerPC.done c.access_token) hi
          rw [hget] at hset
          simp only [callerPot] at hset
          simp only [hv, if_true]
          omega
        | false =>
          have hset := potSum_set s.callers i CallerPC.acquiring hi
          rw [hget] at hset
          simp only [callerPot] at hset
          simp [hv]
          omega
    | acquiring =>
      have hset := potSum_set s.callers i (CallerPC.writing (freshToken s.requests)) hi
      rw [hget] at hset
      simp only [callerPot] at hset
      simp only []
      omega
    | writing tok =>
      have hset := potSum_set s.callers i (CallerPC.done tok) hi
      rw [hget] at hset
      simp only [callerPot] at hset
      simp only []
      omega
    | done tok => simp

lemma authRun_measure (now : Nat) (sched : List Nat) (s : AuthSys) :
    (authRun now s sched).requests + potSum (authRun now s sched).callers ≤
      s.requests + potSum s.callers := by
  induction sched generalizing s with
  | nil => simp [authRun]
  | cons i rest ih =>
    have hstep := authStep_measure now s i
    have htail := ih (authStep now s i)
    calc (authRun now s (i :: rest)).requests +
          potSum (authRun now s (i :: rest)).callers
        = (authRun now (authStep now s i) rest).requests +
          potSum (authRun now (authStep now s i) rest).callers := rfl
      _ ≤ (authStep now s i).requests + potSum (authStep now s i).callers := htail
      _ ≤ s.requests + potSum s.callers := hstep

/-- C1 amended: `get_token` performs no double-checked re-validation,
so with N concurrent callers and no valid cached token up to N
token-exchange requests may be issued (two callers can each issue their
own, as `claim_C1_counterexample` shows at a concrete schedule); under
every schedule the number of exchanges never exceeds the number of
callers, each caller issuing at most one. -/
theorem claim_C1_amended_request_bound (now n : Nat) (sched : List Nat) :
    (authRun now (authInit n) sched).requests ≤ n := by
  have h := authRun_measure now sched (authInit n)
  have hpot : potSum (authInit n).callers = n := by
    simp [authInit, potSum, List.map_replicate, callerPot]
  rw [hpot] at h
  simpa [authInit] using Nat.le_trans (Nat.le_add_right _ _) h

/-! ## Retrying transport (`src/src/odata/client.rs` lines 191-266)

`ODataClient::execute_with_retry` loops over attempts; each attempt
sends the GET and classifies the response status.  The embedding takes
the sequence of responses the server would give to the successive
requests; `u64` delay arithmetic wraps modulo `2 ^ 64`. -/

/-- An HTTP response: status code, the parsed `Retry-After` header in
seconds when present and parseable (lines 219-224 treat an absent and
an unparseable header alike), and the body text. -/
structure HttpResponse where
  status : Nat
  retryAfter : Option Nat
  body : String
deriving DecidableEq, Repr

/-- `ODataError` (client.rs lines 17-36). -/
inductive ODataError where
  | authError (msg : String)
  | httpError (msg : String)
  | rateLimited (secs : Nat)
  | serverError (status : Nat) (body : String)
  | parseError (msg : String)
  | notFound (body : String)
deriving DecidableEq, Repr

/-- A backoff sleep: `sleep(Duration::from_secs _)` on the 429 branch,
`sleep(Duration::from_millis _)` on the 5xx branch. -/
inductive SleepEvent where
  | secs (n : Nat)
  | millis (n : Nat)
deriving DecidableEq, Repr

/-- Outcome of the retry loop. -/
inductive RetryResult where
  | ok (r : HttpResponse)
  | err (e : ODataError)
  | noResponse
deriving DecidableEq, Repr

/-- `u64` range. -/
def U64 : Nat := 2 ^ 64

/-- `delay *= 2` on a `u64` (wraps modulo `2 ^ 64`). -/
def doubleWrap (d : Nat) : Nat := d * 2 % U64

/-- reqwest `StatusCode::is_success`: 200..=299. -/
def isSuccessStatus (s : Nat) : Bool := 200 ≤ s && s ≤ 299

/-- reqwest `StatusCode::is_server_error`: 500..=599. -/
def isServerErrorStatus (s : Nat) : Bool := 500 ≤ s && s ≤ 599

/-- The retry loop of `execute_with_retry` (lines 199-265), starting
from attempt counter `attempt0` and current delay `delay`, consuming
the successive responses and recording the sleeps performed. -/
def executeWithRetry (maxRetries : Nat) :
    Nat → Nat → List HttpResponse → RetryResult × List SleepEvent
  | _, _, [] => (.noResponse, [])
  | attempt0, delay, r :: rest =>
    let attempt := attempt0 + 1
    if r.status = 200 ∨ r.status = 201 ∨ r.status = 204 then
      (.ok r, [])
    else if r.status = 429 then
      let retryAfter := r.retryAfter.getD (delay / 1000)
      if maxRetries ≤ attempt then
        (.err (.rateLimited retryAfter), [])
      else
        let cont := executeWithRetry maxRetries attempt (doubleWrap delay) rest
        (cont.1, .secs retryAfter :: cont.2)
    else if r.status = 404 then
      (.err (.notFound r.body), [])
    else if isServerErrorStatus r.status then
      if maxRetries ≤ attempt then
        (.err (.serverError r.status r.body), [])
      else
        let cont := executeWithRetry maxRetries attempt (doubleWrap delay) rest
        (cont.1, .millis delay :: cont.2)
    else
      (.err (.serverError r.status r.body), [])

/-- `execute_with_retry(url, token)`: attempt counter starts at 0 and
is incremented at the top of the loop; the delay starts at the
configured `retry_delay_ms`. -/
def execute_with_retry (maxRetries retryDelayMs : Nat)
    (resps : List HttpResponse) : RetryResult × List SleepEvent :=
  executeWithRetry maxRetries 0 retryDelayMs resps

/-- A response the loop retries: 429 or 5xx. -/
def Retryable (r : HttpResponse) : Prop :=
  r.status = 429 ∨ (500 ≤ r.status ∧ r.status ≤ 599)

instance : DecidablePred Retryable := fun r => by
  unfold Retryable; infer_instance

/-- The current delay after `n` retried attempts: doubled (with `u64`
wrap) after every retried attempt. -/
def delayAfter (d : Nat) : Nat → Nat
  | 0 => d
  | n + 1 => doubleWrap (delayAfter d n)

/-- The sleeps performed for a run of retried responses starting at
delay `d`: `Retry-After` (or `d / 1000` as fallback) seconds for a 429,
`d` milliseconds for a 5xx, the delay doubling after each. -/
def sleepsOf : List HttpResponse → Nat → List SleepEvent
  | [], _ => []
  | r :: rest, d =>
    (if r.status = 429 then SleepEvent.secs (r.retryAfter.getD (d / 1000))
     else SleepEvent.millis d) :: sleepsOf rest (doubleWrap d)

lemma delayAfter_shift (d n : Nat) :
    delayAfter (doubleWrap d) n = delayAfter d (n + 1) := by
  induction n with
  | zero => rfl
  | succ k ih => simp only [delayAfter, ih]

lemma executeWithRetry_success (m a d : Nat) (r : HttpResponse)
    (rest : List HttpResponse)
    (h : r.status = 200 ∨ r.status = 201 ∨ r.status = 204) :
    executeWithRetry m a d (r :: rest) = (.ok r, []) := by
  simp [executeWithRetry, h]

lemma executeWithRetry_notFound (m a d : Nat) (r : HttpResponse)
    (rest : List HttpResponse) (h : r.status = 404) :
    executeWithRetry m a d (r :: rest) = (.err (.notFound r.body), []) := by
  simp [executeWithRetry, h]

lemma executeWithRetry_other (m a d : Nat) (r : HttpResponse)
    (rest : List HttpResponse)
    (h200 : ¬(r.status = 200 ∨ r.status = 201 ∨ r.status = 204))
    (h429 : r.status ≠ 429) (h404 : r.status ≠ 404)
    (h5xx : ¬(500 ≤ r.status ∧ r.status ≤ 599)) :
    executeWithRetry m a d (r :: rest) =
      (.err (.serverError r.status r.body), []) := by
  have hsrv : isServerErrorStatus r.status = false := by
    simp [isServerErrorStatus]; omega
  simp [executeWithRetry, h200, h429, h404, hsrv]

lemma executeWithRetry_429_exhausted (m a d : Nat) (r : HttpResponse)
    (rest : List HttpResponse) (h : r.status = 429) (hm : m ≤ a + 1) :
    executeWithRetry m a d (r :: rest) =
      (.err (.rateLimited (r.retryAfter.getD (d / 1000))), []) := by
  simp [executeWithRetry, h, hm]

lemma executeWithRetry_5xx_exhausted (m a d : Nat) (r : HttpResponse)
    (rest : List HttpResponse) (h5 : 500 ≤ r.status ∧ r.status ≤ 599)
    (hm : m ≤ a + 1) :
    executeWithRetry m a d (r :: rest) =
      (.err (.serverError r.status r.body), []) := by
  have h200 : ¬(r.status = 200 ∨ r.status = 201 ∨ r.status = 204) := by omega
  have h429 : r.status ≠ 429 := by omega
  have h404 : r.status ≠ 404 := by omega
  have hsrv : isServerErrorStatus r.status = true := by
    simp [isServerErrorStatus]; omega
  simp [executeWithRetry, h200, h429, h404, hsrv, hm]

lemma executeWithRetry_429_retry (m a d : Nat) (r : HttpResponse)
    (rest : List HttpResponse) (h : r.status = 429) (hm : a + 1 < m) :
    executeWithRetry m a d (r :: rest) =
      ((executeWithRetry m (a + 1) (doubleWrap d) rest).1,
        .secs (r.retryAfter.getD (d / 1000)) ::
          (executeWithRetry m (a + 1) (doubleWrap d) rest).2) := by
  simp [executeWithRetry, h, Nat.not_le.mpr hm]

lemma executeWithRetry_5xx_retry (m a d : Nat) (r : HttpResponse)
    (rest : List HttpResponse) (h5 : 500 ≤ r.status ∧ r.status ≤ 599)
    (hm : a + 1 < m) :
    executeWithRetry m a d (r :: rest) =
      ((executeWithRetry m (a + 1) (doubleWrap d) rest).1,
        .millis d :: (executeWithRetry m (a + 1) (doubleWrap d) rest).2) := by
  have h200 : ¬(r.status = 200 ∨ r.status = 201 ∨ r.status = 204) := by omega
  have h429 : r.status ≠ 429 := by omega
  have h404 : r.status ≠ 404 := by omega
  have hsrv : isServerErrorStatus r.status = true := by
    simp [isServerErrorStatus]; omega
  simp [executeWithRetry, h200, h429, h404, hsrv, Nat.not_le.mpr hm]

/-- Running the loop through a prefix of retried (429/5xx) responses
performs the corresponding sleeps, advances the attempt counter by the
prefix length, and doubles the delay once per retried attempt. -/
lemma executeWithRetry_retry_run (m : Nat) (pre : List HttpResponse)
    (rs : List HttpResponse) (a d : Nat)
    (hret : ∀ x ∈ pre, Retryable x) (hlen : a + pre.length < m) :
    executeWithRetry m a d (pre ++ rs) =
      ((executeWithRetry m (a + pre.length) (delayAfter d pre.length) rs).1,
        sleepsOf pre d ++
          (executeWithRetry m (a + pre.length) (delayAfter d pre.length) rs).2) := by
  induction pre generalizing a d with
  | nil => simp [sleepsOf, delayAfter]
  | cons r pre ih =>
    have hr : Retryable r := hret r (List.mem_cons_self r pre)
    have htail : ∀ x ∈ pre, Retryable x :=
      fun x hx => hret x (List.mem_cons_of_mem r hx)
    have hm : a + 1 < m := by
      simp only [List.length_cons] at hlen; omega
    have hlen' : (a + 1) + pre.length < m := by
      simp only [List.length_cons] at hlen; omega
    have ihs := ih (a + 1) (doubleWrap d) htail hlen'
    rcases hr with h429 | h5
    · rw [List.cons_append, executeWithRetry_429_retry m a d r (pre ++ rs) h429 hm, ihs]
      simp only [sleepsOf, h429, if_pos, List.cons_append, delayAfter_shift]
      have harith : a + 1 + pre.length = a + (pre.length + 1) := by omega
      rw [harith]
      simp [List.length_cons]
    · have hne429 : r.status ≠ 429 := by omega
      rw [List.cons_append, executeWithRetry_5xx_retry m a d r (pre ++ rs) h5 hm, ihs]
      simp only [sleepsOf, hne429, if_neg, List.cons_append, delayAfter_shift]
      have harith : a + 1 + pre.length = a + (pre.length + 1) := by omega
      rw [harith]
      simp [List.length_cons]

/-- C2: classification and backoff policy of the retrying transport.
After any run of `pre` retried (429/5xx) attempts that does not exhaust
the budget, attempt number `pre.length + 1` processes response `r`:
200/201/204 returns it immediately; 404 immediately fails `NotFound`
with the body, never retried; any other status that is not 429 and not
5xx immediately fails `ServerError(status, body)`; a 429 waits the
`Retry-After` value if present, else `currentDelay / 1000` seconds,
where `currentDelay` (`delayAfter d0 pre.length`) started at
`retry_delay_ms` and doubled after every retried attempt, with
`RateLimited(retryAfterSeconds)` on exhaustion (`maxRetries ≤
attempt`); a 5xx sleeps `currentDelay` milliseconds, doubling likewise,
with `ServerError(status, body)` on exhaustion. -/
theorem claim_C2_retry_policy (m d0 : Nat) (pre : List HttpResponse)
    (r : HttpResponse) (rest : List HttpResponse)
    (hret : ∀ x ∈ pre, Retryable x) (hpre : pre.length < m) :
    ((r.status = 200 ∨ r.status = 201 ∨ r.status = 204) →
      execute_with_retry m d0 (pre ++ r :: rest) =
        (.ok r, sleepsOf pre d0)) ∧
    (r.status = 404 →
      execute_with_retry m d0 (pre ++ r :: rest) =
        (.err (.notFound r.body), sleepsOf pre d0)) ∧
    (¬(r.status = 200 ∨ r.status = 201 ∨ r.status = 204) →
      r.status ≠ 404 → r.status ≠ 429 → ¬(500 ≤ r.status ∧ r.status ≤ 599) →
      execute_with_retry m d0 (pre ++ r :: rest) =
        (.err (.serverError r.status r.body), sleepsOf pre d0)) ∧
    (r.status = 429 → m ≤ pre.length + 1 →
      execute_with_retry m d0 (pre ++ r :: rest) =
        (.err (.rateLimited
          (r.retryAfter.getD (delayAfter d0 pre.length / 1000))),
          sleepsOf pre d0)) ∧
    (500 ≤ r.status ∧ r.status ≤ 599 → m ≤ pre.length + 1 →
      execute_with_retry m d0 (pre ++ r :: rest) =
        (.err (.serverError r.status r.body), sleepsOf pre d0)) ∧
    (r.status = 429 → pre.length + 1 < m →
      execute_with_retry m d0 (pre ++ r :: rest) =
        ((executeWithRetry m (pre.length + 1)
            (delayAfter d0 (pre.length + 1)) rest).1,
          sleepsOf pre d0 ++
            .secs (r.retryAfter.getD (delayAfter d0 pre.length / 1000)) ::
              (executeWithRetry m (pre.length + 1)
                (delayAfter d0 (pre.length + 1)) rest).2)) ∧
    (500 ≤ r.status ∧ r.status ≤ 599 → pre.length + 1 < m →
      execute_with_retry m d0 (pre ++ r :: rest) =
        ((executeWithRetry m (pre.length + 1)
            (delayAfter d0 (pre.length + 1)) rest).1,
          sleepsOf pre d0 ++
            .millis (delayAfter d0 pre.length) ::
              (executeWithRetry m (pre.length + 1)
                (delayAfter d0 (pre.length + 1)) rest).2)) := by
  have hrun := executeWithRetry_retry_run m pre (r :: rest) 0 d0 hret
    (by simpa using hpre)
  simp only [Nat.zero_add] at hrun
  unfold execute_with_retry
  rw [hrun]
  refine ⟨?_, ?_, ?_, ?_, ?_, ?_, ?_⟩
  · intro h
    rw [executeWithRetry_success m pre.length _ r rest h]
    simp
  · intro h
    rw [executeWithRetry_notFound m pre.length _ r rest h]
    simp
  · intro h200 h404 h429 h5xx
    rw [executeWithRetry_other m pre.length _ r rest h200 h429 h404 h5xx]
    simp
  · intro h hm
    rw [executeWithRetry_429_exhausted m pre.length _ r rest h hm]
    simp
  · intro h5 hm
    rw [executeWithRetry_5xx_exhausted m pre.length _ r rest h5 hm]
    simp
  · intro h hm
    rw [executeWithRetry_429_retry m pre.length _ r rest h hm]
    simp [delayAfter]
  · intro h5 hm
    rw [executeWithRetry_5xx_retry m pre.length _ r rest h5 hm]
    simp [delayAfter]

/-- C2 witness: budget 3, initial delay 1000ms; a 503 (sleep 1000ms,
delay doubles to 2000), a header-less 429 (sleep 2000/1000 = 2s, delay
doubles to 4000), then a final header-less 429 exhausts the budget with
`RateLimited(4000 / 1000)` — the fallback delay kept doubling. -/
theorem claim_C2_retry_policy_witness :
    execute_with_retry 3 1000
      [⟨503, none, "e1"⟩, ⟨429, none, "e2"⟩, ⟨429, none, "slow"⟩] =
      (.err (.rateLimited 4), [.millis 1000, .secs 2]) := by
  have h := (claim_C2_retry_policy 3 1000 [⟨503, none, "e1"⟩, ⟨429, none, "e2"⟩]
    ⟨429, none, "slow"⟩ [] (by decide) (by decide)).2.2.2.1 rfl (by decide)
  exact h.trans (by decide)

/-! ## Metadata fetch (`src/src/odata/client.rs` lines 269-296)

`ODataClient::fetch_metadata` builds `{endpoint}$metadata`, sends ONE
GET with bearer authorization and `Accept: application/xml` (lines
273-279) — it does not call `execute_with_retry` — and on any
non-success status returns `ServerError(status, body)` (lines
281-285); on success the bytes are decoded leniently into text. -/

/-- Headers sent by `execute_with_retry` (lines 205-209). -/
def odataJsonHeaders (token : String) : List (String × String) :=
  [("Authorization", "Bearer " ++ token),
   ("Accept", "application/json"),
   ("OData-MaxVersion", "4.0"),
   ("OData-Version", "4.0"),
   ("Prefer", "odata.include-annotations=*")]

/-- Headers sent by `fetch_metadata` (lines 276-277). -/
def metadataHeaders (token : String) : List (String × String) :=
  [("Authorization", "Bearer " ++ token),
   ("Accept", "application/xml")]

/-- `fetch_metadata`'s handling of the server's responses: it consumes
exactly one (the pair's second component counts requests issued). -/
def fetch_metadata (resps : List HttpResponse) :
    Except ODataError String × Nat :=
  match resps with
  | [] => (.error (.httpError "request failed"), 0)
  | r :: _ =>
    if isSuccessStatus r.status then (.ok r.body, 1)
    else (.error (.serverError r.status r.body), 1)

/-- C3 counterexample: the server answers 429 (`Retry-After: 2`) and
then 200.  The retrying transport with budget 3 absorbs the 429 and
succeeds, but the metadata path fails terminally with
`ServerError(429, ...)` on its single request — the 429 is not
absorbed by the retry policy and surfaces without the budget being
exhausted. -/
theorem claim_C3_counterexample :
    fetch_metadata [⟨429, some 2, "slow down"⟩, ⟨200, none, "m"⟩] =
      (.error (.serverError 429 "slow down"), 1) ∧
    execute_with_retry 3 1000 [⟨429, some 2, "slow down"⟩, ⟨200, none, "m"⟩] =
      (.ok ⟨200, none, "m"⟩, [.secs 2]) :=
  ⟨rfl, by decide⟩

/-- C3 amended: `fetch_metadata` does not use the retrying transport.
It issues exactly one request, with `Accept: application/xml` and
without the JSON-specific headers (the only header it shares with the
entity path is the bearer authorization); a success status returns the
body text, and every non-success status — 429, 404 and 5xx included —
immediately surfaces as `ServerError(status, body)`, never as
`RateLimited` and never retried. -/
theorem claim_C3_amended (r : HttpResponse) (rest : List HttpResponse)
    (token : String) :
    (fetch_metadata (r :: rest)).2 = 1 ∧
    (isSuccessStatus r.status = true →
      fetch_metadata (r :: rest) = (.ok r.body, 1)) ∧
    (isSuccessStatus r.status = false →
      fetch_metadata (r :: rest) = (.error (.serverError r.status r.body), 1)) ∧
    ("Accept", "application/xml") ∈ metadataHeaders token ∧
    (∀ h ∈ metadataHeaders token, h ∈ odataJsonHeaders token →
      h.1 = "Authorization") := by
  refine ⟨?_, ?_, ?_, ?_, ?_⟩
  · cases h : isSuccessStatus r.status <;> simp [fetch_metadata, h]
  · intro h
    simp [fetch_metadata, h]
  · intro h
    simp [fetch_metadata, h]
  · simp [metadataHeaders]
  · intro h hmem hjson
    rcases List.mem_cons.1 hmem with heq | hmem2
    · subst heq; rfl
    · rcases List.mem_cons.1 hmem2 with heq | hnil
      · subst heq
        simp [odataJsonHeaders] at hjson
      · exact absurd hnil (List.not_mem_nil h)

/-- C3 amended witness: a single 500 response fails immediately as
`ServerError(500, "boom")` after one request; a 200 succeeds. -/
theorem claim_C3_amended_witness :
    fetch_metadata [⟨500, none, "boom"⟩] =
      (.error (.serverError 500 "boom"), 1) ∧
    fetch_metadata [⟨200, none, "<edmx/>"⟩] = (.ok "<edmx/>", 1) :=
  ⟨(claim_C3_amended ⟨500, none, "boom"⟩ [] "t").2.2.1 (by decide),
   (claim_C3_amended ⟨200, none, "<edmx/>"⟩ [] "t").2.1 (by decide)⟩

/-! ## Pagination (`src/src/odata/client.rs` lines 98-115, 337-364) -/

/-- `ODataResponse` (lines 99-115): one page of results.  The records
are opaque (`serde_json::Value`), modelled by a type parameter. -/
structure ODataResponse (α : Type) where
  context : Option String
  next_link : Option String
  count : Option Int
  delta_link : Option String
  value : List α
deriving DecidableEq, Repr

/-- The loop of `fetch_all_pages` (lines 346-360) over the server's
successive page responses: accumulate `value`, count the page, follow
`next_link` until absent.  `none` marks a request the server never
answered (unreachable for a well-linked chain). -/
def fetch_all_pages_loop {α : Type} :
    List (ODataResponse α) → List α → Nat → Option (List α × Nat)
  | [], _, _ => none
  | resp :: rest, acc, pages =>
    let pages := pages + 1
    let acc := acc ++ resp.value
    match resp.next_link with
    | some _ => fetch_all_pages_loop rest acc pages
    | none => some (acc, pages)

/-- `fetch_all_pages(entity, options)` (lines 337-364): start with no
records and page counter 0. -/
def fetch_all_pages {α : Type} (resps : List (ODataResponse α)) :
    Option (List α × Nat) :=
  fetch_all_pages_loop resps [] 0

lemma fetch_all_pages_loop_chain {α : Type} (body : List (ODataResponse α))
    (last : ODataResponse α) (hbody : ∀ p ∈ body, p.next_link.isSome)
    (hlast : last.next_link = none) (acc : List α) (pages : Nat) :
    fetch_all_pages_loop (body ++ [last]) acc pages =
      some (acc ++ (body.map (fun p => p.value)).flatten ++ last.value,
        pages + body.length + 1) := by
  induction body generalizing acc pages with
  | nil => simp [fetch_all_pages_loop, hlast]
  | cons p body ih =>
    have hp := hbody p (List.mem_cons_self p body)
    rcases Option.isSome_iff_exists.1 hp with ⟨l, hl⟩
    simp only [List.cons_append, fetch_all_pages_loop, hl, List.append_eq]
    rw [ih (fun x hx => hbody x (List.mem_cons_of_mem p hx))]
    simp only [Option.some.injEq, Prod.mk.injEq, List.map_cons,
      List.flatten_cons, List.length_cons]
    constructor
    · simp [List.append_assoc]
    · omega

/-- C4: for a server whose successive responses are pages linked via
`@odata.nextLink` — every page but the last carries a link, the last
does not — `fetch_all_pages` returns exactly the concatenation of all
pages' `value` records in page order (within-page order preserved) and
performs exactly one request per page. -/
theorem claim_C4_fetch_all_pages {α : Type} (body : List (ODataResponse α))
    (last : ODataResponse α) (hbody : ∀ p ∈ body, p.next_link.isSome)
    (hlast : last.next_link = none) :
    fetch_all_pages (body ++ [last]) =
      some ((((body ++ [last]).map (fun p => p.value)).flatten),
        (body ++ [last]).length) := by
  unfold fetch_all_pages
  rw [fetch_all_pages_loop_chain body last hbody hlast]
  simp

/-- C4 witness: three pages linked via `nextLink` yield the records of
all three pages in order and exactly 3 requests. -/
theorem claim_C4_fetch_all_pages_witness :
    fetch_all_pages
      [⟨none, some "p2", none, none, [1, 2]⟩,
       ⟨none, some "p3", none, none, [3]⟩,
       (⟨none, none, none, none, [4, 5]⟩ : ODataResponse Nat)] =
      some ([1, 2, 3, 4, 5], 3) := by
  have h := claim_C4_fetch_all_pages (α := Nat)
    [⟨none, some "p2", none, none, [1, 2]⟩, ⟨none, some "p3", none, none, [3]⟩]
    ⟨none, none, none, none, [4, 5]⟩ (by decide) rfl
  exact h.trans (by decide)

/-! ## String primitives for the line-oriented scanners

`parse_entity_from_metadata` (client.rs lines 395-536) and
`extract_entity_sets_from_metadata` (server.rs lines 276-301) work on
lines of text with `trim`, `contains`, `starts_with`, `find`, slicing,
`replace` and `split`.  These are modelled on `List Char`; indices are
character positions, which coincide with Rust's byte positions on the
ASCII documents of these claims. -/

/-- Split at every occurrence of `sep` (Rust `str::split`). -/
def splitChar (sep : Char) : List Char → List (List Char)
  | [] => [[]]
  | c :: rest =>
    match splitChar sep rest with
    | [] => [[]]
    | h :: t => if c = sep then [] :: h :: t else (c :: h) :: t

/-- Rust `str::lines`: split at `\n`, not emitting a final empty line,
stripping one trailing `\r` from each line. -/
def rustLines (s : List Char) : List (List Char) :=
  let parts := splitChar '\n' s
  let parts := if parts.getLast? = some [] then parts.dropLast else parts
  parts.map fun l =>
    match l.getLast? with
    | some c => if c = '\r' then l.dropLast else l
    | none => l

/-- Rust `str::trim` (the documents here are ASCII, where Rust's
Unicode whitespace and `Char.isWhitespace` agree). -/
def trimChars (l : List Char) : List Char :=
  ((l.dropWhile Char.isWhitespace).reverse.dropWhile Char.isWhitespace).reverse

/-- Rust `str::find`: index of the first occurrence of `pat`. -/
def findSub (pat : List Char) : List Char → Option Nat
  | [] => if pat = [] then some 0 else none
  | c :: rest =>
    if pat.isPrefixOf (c :: rest) then some 0
    else (findSub pat rest).map (fun n => n + 1)

/-- Rust `str::contains`. -/
def containsSub (hay pat : List Char) : Bool := (findSub pat hay).isSome

/-- Rust `str::replace` for a non-empty pattern (all the patterns used
by the parser — `"Edm."`, `"Collection("`, `")"` — are non-empty):
replace every non-overlapping occurrence, left to right.  The fuel is
the input length, which bounds the number of steps. -/
def replaceAllFuel (pat rep : List Char) : Nat → List Char → List Char
  | 0, s => s
  | _, [] => []
  | fuel + 1, c :: rest =>
    if pat ≠ [] ∧ pat.isPrefixOf (c :: rest) then
      rep ++ replaceAllFuel pat rep fuel (List.drop (pat.length - 1) rest)
    else
      c :: replaceAllFuel pat rep fuel rest

/-- Rust `s.replace(pat, rep)` (non-empty `pat`). -/
def replaceAll (s pat rep : List Char) : List Char :=
  replaceAllFuel pat rep s.length s

/-- The attribute-value extraction idiom used at every site of the
scanners: `find(pat)`, skip the pattern, then take up to the next `"`
(e.g. `pat = "Name=\""` with the hard-coded `+ 6`, which equals the
pattern length). -/
def attrAfter (pat : List Char) (s : List Char) : Option (List Char) :=
  match findSub pat s with
  | some start =>
    let rest := s.drop (start + pat.length)
    match findSub ['"'] rest with
    | some e => some (rest.take e)
    | none => none
  | none => none

/-! ## Metadata entity parser (`src/src/odata/client.rs` lines 395-536) -/

/-- The mutable locals of `parse_entity_from_metadata` (lines
401-406). -/
structure ParseState where
  properties : List (List Char)
  nav_properties : List (List Char)
  key_fields : List (List Char)
  in_entity : Bool
  in_key : Bool
  entity_type_name : List Char
deriving DecidableEq, Repr

/-- Lines 412-430: exact `<EntityType Name="{entity_name}">` match,
then — only if still outside an entity — the mutual-prefix fallback
match on the extracted `Name` attribute. -/
def stepEntityMatch (entityName : List Char) (st : ParseState)
    (trimmed : List Char) : ParseState :=
  let st :=
    if containsSub trimmed "<EntityType ".data &&
        containsSub trimmed ("Name=\"".data ++ entityName ++ ['"']) then
      { st with in_entity := true, entity_type_name := entityName }
    else st
  if !st.in_entity && containsSub trimmed "<EntityType ".data then
    match attrAfter "Name=\"".data trimmed with
    | some name =>
      if entityName.isPrefixOf name || name.isPrefixOf entityName then
        { st with in_entity := true, entity_type_name := name }
      else st
    | none => st
  else st

/-- Lines 433-448: `<Key>` / `</Key>` span tracking and `PropertyRef`
key-field collection. -/
def stepKeys (st : ParseState) (trimmed : List Char) : ParseState :=
  let st := if containsSub trimmed "<Key>".data then { st with in_key := true } else st
  let st := if containsSub trimmed "</Key>".data then { st with in_key := false } else st
  if st.in_key && containsSub trimmed "<PropertyRef ".data then
    match attrAfter "Name=\"".data trimmed with
    | some name => { st with key_fields := st.key_fields ++ [name] }
    | none => st
  else st

/-- Lines 451-475: a `<Property ...>` line contributes
`"name: type"` with every `"Edm."` removed from the type, or bare
`name` when the `Type` attribute is absent or unterminated. -/
def stepProps (st : ParseState) (trimmed : List Char) : ParseState :=
  if "<Property ".data.isPrefixOf trimmed &&
      containsSub trimmed "Name=\"".data then
    match attrAfter "Name=\"".data trimmed with
    | some name =>
      let prop_str :=
        match attrAfter "Type=\"".data trimmed with
        | some t => name ++ ": ".data ++ replaceAll t "Edm.".data []
        | none => name
      { st with properties := st.properties ++ [prop_str] }
    | none => st
  else st

/-- Lines 478-516: a `<NavigationProperty ...>` line contributes
`"name -> Target"`, or `"name -> [Target]"` when the type mentions
`Collection`, where `Target` is the last dot-separated segment after
stripping `"Collection("` and `")"`. -/
def stepNavs (st : ParseState) (trimmed : List Char) : ParseState :=
  if "<NavigationProperty ".data.isPrefixOf trimmed &&
      containsSub trimmed "Name=\"".data then
    match attrAfter "Name=\"".data trimmed with
    | some name =>
      let nav_str :=
        match attrAfter "Type=\"".data trimmed with
        | some t =>
          let cleaned := replaceAll (replaceAll t "Collection(".data []) ")".data []
          let clean_type := ((splitChar '.' cleaned).getLast?).getD t
          if containsSub t "Collection".data then
            name ++ " -> [".data ++ clean_type ++ "]".data
          else
            name ++ " -> ".data ++ clean_type
        | none => name
      { st with nav_properties := st.nav_properties ++ [nav_str] }
    | none => st
  else st

/-- Lines 519-524: at `</EntityType>`, stop if any properties or
navigation properties were collected, else leave the entity and keep
scanning. -/
def stepEnd (st : ParseState) (trimmed : List Char) : ParseState × Bool :=
  if trimmed = "</EntityType>".data then
    if st.properties ≠ [] ∨ st.nav_properties ≠ [] then (st, true)
    else ({ st with in_entity := false }, false)
  else (st, false)

/-- One iteration of the line loop (lines 409-526); the Bool is the
`break`. -/
def processLine (entityName : List Char) (st : ParseState)
    (line : List Char) : ParseState × Bool :=
  let trimmed := trimChars line
  let st1 := stepEntityMatch entityName st trimmed
  if st1.in_entity then
    stepEnd (stepNavs (stepProps (stepKeys st1 trimmed) trimmed) trimmed)
      trimmed
  else (st1, false)

/-- The line loop. -/
def parseLoop (entityName : List Char) :
    List (List Char) → ParseState → ParseState
  | [], st => st
  | line :: rest, st =>
    match processLine entityName st line with
    | (st, true) => st
    | (st, false) => parseLoop entityName rest st

/-- Initial locals (lines 401-406). -/
def initParseState : ParseState := ⟨[], [], [], false, false, []⟩

/-- The single-quote character (for the `NotFound` message text). -/
def singleQuote : String := String.mk [Char.ofNat 39]

/-- The `NotFound` message of lines 529-532. -/
def entityNotFoundMsg (entity_name : String) : String :=
  "Entity " ++ singleQuote ++ entity_name ++ singleQuote ++
    " not found in metadata"

/-- `ODataClient::parse_entity_from_metadata` (lines 395-536): scan the
lines; fail with `NotFound` when no properties and no navigation
properties were collected, else return
`(properties, navigation properties, key fields)`. -/
def parse_entity_from_metadata (metadata_xml entity_name : String) :
    Except ODataError (List String × List String × List String) :=
  let final := parseLoop entity_name.data (rustLines metadata_xml.data)
    initParseState
  if final.properties = [] ∧ final.nav_properties = [] then
    .error (.notFound (entityNotFoundMsg entity_name))
  else
    .ok (final.properties.map String.mk,
      final.nav_properties.map String.mk,
      final.key_fields.map String.mk)

/-- The Contact metadata fragment of the claim, one element per line as
in an EDMX document. -/
def contactMetadataDoc : String :=
  "<EntityType Name=\"Contact\">\n  <Key>\n    <PropertyRef Name=\"contactid\"/>\n  </Key>\n  <Property Name=\"fullname\" Type=\"Edm.String\"/>\n  <NavigationProperty Name=\"parentaccount\" Type=\"Microsoft.Dynamics.CRM.account\"/>\n</EntityType>"

set_option maxRecDepth 100000 in
/-- C5: parsing the Contact fragment for entity `"Contact"` yields
properties `["fullname: String"]` (the `Edm.` prefix stripped),
navigation properties `["parentaccount -> account"]` (last dot-segment
of the target type), and key fields `["contactid"]`. -/
theorem claim_C5_parse_contact :
    parse_entity_from_metadata contactMetadataDoc "Contact" =
      .ok (["fullname: String"], ["parentaccount -> account"],
        ["contactid"]) := by
  rfl


lemma stepEntityMatch_fields (e : List Char) (st : ParseState) (t : List Char) :
    (stepEntityMatch e st t).properties = st.properties ∧
    (stepEntityMatch e st t).nav_properties = st.nav_properties := by
  unfold stepEntityMatch
  rcases h : attrAfter "Name=\"".data t with _ | name <;>
    simp only [h] <;> (try split_ifs) <;> simp

lemma stepKeys_fields (st : ParseState) (t : List Char) :
    (stepKeys st t).properties = st.properties ∧
    (stepKeys st t).nav_properties = st.nav_properties := by
  unfold stepKeys
  rcases h : attrAfter "Name=\"".data t with _ | name <;>
    simp only [h] <;> (try split_ifs) <;> simp

lemma stepProps_id (st : ParseState) (t : List Char)
    (h : "<Property ".data.isPrefixOf t = false) :
    stepProps st t = st := by
  unfold stepProps
  simp [h]

lemma stepNavs_id (st : ParseState) (t : List Char)
    (h : "<NavigationProperty ".data.isPrefixOf t = false) :
    stepNavs st t = st := by
  unfold stepNavs
  simp [h]

lemma stepEnd_empty (st : ParseState) (t : List Char)
    (hp : st.properties = []) (hn : st.nav_properties = []) :
    (stepEnd st t).1.properties = [] ∧
    (stepEnd st t).1.nav_properties = [] ∧ (stepEnd st t).2 = false := by
  unfold stepEnd
  split
  · have hcond : ¬(st.properties ≠ [] ∨ st.nav_properties ≠ []) := by
      simp [hp, hn]
    rw [if_neg hcond]
    simp [hp, hn]
  · simp [hp, hn]

lemma processLine_no_props (e : List Char) (st : ParseState)
    (line : List Char) (hp : st.properties = []) (hn : st.nav_properties = [])
    (h1 : "<Property ".data.isPrefixOf (trimChars line) = false)
    (h2 : "<NavigationProperty ".data.isPrefixOf (trimChars line) = false) :
    (processLine e st line).1.properties = [] ∧
    (processLine e st line).1.nav_properties = [] ∧
    (processLine e st line).2 = false := by
  unfold processLine
  have hem := stepEntityMatch_fields e st (trimChars line)
  have hp1 : (stepEntityMatch e st (trimChars line)).properties = [] :=
    hem.1.trans hp
  have hn1 : (stepEntityMatch e st (trimChars line)).nav_properties = [] :=
    hem.2.trans hn
  by_cases hin : (stepEntityMatch e st (trimChars line)).in_entity = true
  · rw [if_pos hin]
    have hk := stepKeys_fields (stepEntityMatch e st (trimChars line))
      (trimChars line)
    rw [stepProps_id _ _ h1, stepNavs_id _ _ h2]
    exact stepEnd_empty _ _ (hk.1.trans hp1) (hk.2.trans hn1)
  · rw [if_neg hin]
    exact ⟨hp1, hn1, rfl⟩

lemma parseLoop_no_props (e : List Char) (lines : List (List Char))
    (st : ParseState) (hp : st.properties = []) (hn : st.nav_properties = [])
    (h1 : ∀ l ∈ lines, "<Property ".data.isPrefixOf (trimChars l) = false)
    (h2 : ∀ l ∈ lines,
      "<NavigationProperty ".data.isPrefixOf (trimChars l) = false) :
    (parseLoop e lines st).properties = [] ∧
    (parseLoop e lines st).nav_properties = [] := by
  induction lines generalizing st with
  | nil => exact ⟨hp, hn⟩
  | cons line rest ih =>
    have hpl := processLine_no_props e st line hp hn
      (h1 line (List.mem_cons_self line rest))
      (h2 line (List.mem_cons_self line rest))
    rcases hproc : processLine e st line with ⟨st', b⟩
    rw [hproc] at hpl
    have hb : b = false := hpl.2.2
    subst hb
    have hloop : parseLoop e (line :: rest) st = parseLoop e rest st' := by
      show (match processLine e st line with
        | (st, true) => st
        | (st, false) => parseLoop e rest st) = parseLoop e rest st'
      rw [hproc]
    rw [hloop]
    exact ih st' hpl.1 hpl.2.1
      (fun l hl => h1 l (List.mem_cons_of_mem line hl))
      (fun l hl => h2 l (List.mem_cons_of_mem line hl))

/-- C10: for every metadata document none of whose lines begins (after
trimming) with `<Property ` or `<NavigationProperty ` — in particular
one whose matched `EntityType` block contributes key fields via
`<Key>`/`<PropertyRef>` lines but no properties — the parse fails with
`NotFound`, and the collected key fields are discarded (the error
carries no fields): key fields alone never constitute a successful
parse result. -/
theorem claim_C10_keys_only_not_found (metadata_xml entity_name : String)
    (h1 : ∀ l ∈ rustLines metadata_xml.data,
      "<Property ".data.isPrefixOf (trimChars l) = false)
    (h2 : ∀ l ∈ rustLines metadata_xml.data,
      "<NavigationProperty ".data.isPrefixOf (trimChars l) = false) :
    parse_entity_from_metadata metadata_xml entity_name =
      .error (.notFound (entityNotFoundMsg entity_name)) := by
  unfold parse_entity_from_metadata
  have h := parseLoop_no_props entity_name.data (rustLines metadata_xml.data)
    initParseState rfl rfl h1 h2
  rw [if_pos ⟨h.1, h.2⟩]

/-- A document whose matched block has a key field but no `<Property>`
and no `<NavigationProperty>` lines. -/
def keysOnlyDoc : String :=
  "<EntityType Name=\"Widget\">\n<Key>\n<PropertyRef Name=\"id\"/>\n</Key>\n</EntityType>"

set_option maxRecDepth 100000 in
/-- C10 witness: the keys-only Widget document parses to `NotFound`. -/
theorem claim_C10_keys_only_not_found_witness :
    parse_entity_from_metadata keysOnlyDoc "Widget" =
      .error (.notFound (entityNotFoundMsg "Widget")) :=
  claim_C10_keys_only_not_found keysOnlyDoc "Widget" (by decide) (by decide)

/-! ## Entity-set name extraction (`src/src/mcp/server.rs` lines 276-301) -/

/-- The collection loop of `extract_entity_sets_from_metadata` (lines
279-288): any (untrimmed) line containing both `EntitySet` and `Name=`
contributes its `Name="..."` attribute value, in document order. -/
def extractLoop : List (List Char) → List String → List String
  | [], acc => acc
  | line :: rest, acc =>
    if containsSub line "EntitySet".data && containsSub line "Name=".data then
      match attrAfter "Name=\"".data line with
      | some name => extractLoop rest (acc ++ [String.mk name])
      | none => extractLoop rest acc
    else extractLoop rest acc

/-- The hard-coded fallback list of lines 290-298. -/
def fallbackEntitySets : List String :=
  ["accounts", "contacts", "leads", "opportunities",
   "(try specific entity name)"]

/-- `extract_entity_sets_from_metadata` (lines 276-301): the collected
names, or — when none were collected — the built-in fallback list. -/
def extract_entity_sets_from_metadata (metadata : String) : List String :=
  let entities := extractLoop (rustLines metadata.data) []
  if entities = [] then fallbackEntitySets else entities

/-- C8 counterexample: the empty document has no line containing
`EntitySet` and `Name=...`, yet the extraction itself returns the
non-empty built-in fallback list rather than reporting no entities —
the fallback is substituted inside the extraction, not by the
caller. -/
theorem claim_C8_counterexample :
    extract_entity_sets_from_metadata "" =
      ["accounts", "contacts", "leads", "opportunities",
       "(try specific entity name)"] ∧
    extract_entity_sets_from_metadata "" ≠ [] := by
  exact ⟨rfl, by decide⟩

lemma extractLoop_no_match (lines : List (List Char)) (acc : List String)
    (h : ∀ l ∈ lines,
      ¬(containsSub l "EntitySet".data = true ∧
        containsSub l "Name=".data = true)) :
    extractLoop lines acc = acc := by
  induction lines generalizing acc with
  | nil => rfl
  | cons line rest ih =>
    have hl := h line (List.mem_cons_self line rest)
    have hcond : (containsSub line "EntitySet".data &&
        containsSub line "Name=".data) = false := by
      cases he : containsSub line "EntitySet".data <;>
        cases hn : containsSub line "Name=".data <;> simp_all
    have htail : ∀ l ∈ rest,
        ¬(containsSub l "EntitySet".data = true ∧
          containsSub l "Name=".data = true) :=
      fun l hl2 => h l (List.mem_cons_of_mem line hl2)
    show (if (containsSub line "EntitySet".data &&
        containsSub line "Name=".data) = true then
        match attrAfter "Name=\"".data line with
        | some name => extractLoop rest (acc ++ [String.mk name])
        | none => extractLoop rest acc
      else extractLoop rest acc) = acc
    rw [hcond]
    simpa using ih acc htail

/-- C8 amended: for every metadata document in which no line contains
both `EntitySet` and `Name=`, the extraction does not report the empty
sequence — it returns the built-in fallback list `[accounts, contacts,
leads, opportunities, (try specific entity name)]`, produced by the
extraction itself rather than supplied by the caller. -/
theorem claim_C8_amended (metadata : String)
    (h : ∀ l ∈ rustLines metadata.data,
      ¬(containsSub l "EntitySet".data = true ∧
        containsSub l "Name=".data = true)) :
    extract_entity_sets_from_metadata metadata = fallbackEntitySets := by
  unfold extract_entity_sets_from_metadata
  rw [extractLoop_no_match (rustLines metadata.data) [] h]
  rfl

set_option maxRecDepth 100000 in
/-- C8 amended witness: a document with a schema line but no entity
sets yields the fallback list. -/
theorem claim_C8_amended_witness :
    extract_entity_sets_from_metadata "<Schema>\nno sets here" =
      fallbackEntitySets :=
  claim_C8_amended "<Schema>\nno sets here" (by decide)
